import Mathlib

/-!
# Verification of `sql/statements/info.rs` (INFO statement core)

A shallow embedding of the `INFO FOR ...` statement clause:

* the `InfoStatement` AST node,
* `InfoStatement::compute` — the authorization gate followed by an
  explicit `todo!()` placeholder,
* the `Display` renderer,
* the nom parser `info` with its sub-rules `namespace`, `database`,
  `scope`, `table`.

Strings are embedded as `List Char`; a nom `IResult<&str, T>` becomes
`Option (List Char × T)` (remaining input paired with the value, `none`
on parse failure).  The collaborators that live outside the visible
source tree (`dbs::Level`, `Options::check`, `sql::comment::shouldbespace`,
`sql::ident::ident_raw`) are modelled from the spec, as marked on each
definition.
-/

namespace Info

/-- The `InfoStatement` enum from `sql/statements/info.rs`: a closed sum of
four variants; `Scope` and `Table` carry an identifier payload (a Rust
`String`, embedded as `List Char`). -/
inductive InfoStatement where
  | Namespace : InfoStatement
  | Database : InfoStatement
  | Scope : List Char → InfoStatement
  | Table : List Char → InfoStatement
deriving DecidableEq, Repr

/-- Modelled from the spec: the external permission-tier type `dbs::Level`
(not under the visible source tree).  Only the two tiers this statement's
gate passes to the check, namespace-level and database-level, are needed. -/
inductive Level where
  | Ns : Level
  | Db : Level
deriving DecidableEq, Repr

/-- An observable effect of `compute`: an authorization check call (with the
tier passed to `Options::check`), or an introspection/catalog access.  The
trace of effects lets theorems state "exactly one check, no introspection". -/
inductive Effect where
  | checkCall : Level → Effect
  | introspect : Effect
deriving DecidableEq, Repr

/-- The required tier for each variant, as matched in `compute`'s `match self`. -/
def requiredLevel : InfoStatement → Level
  | .Namespace => .Ns
  | .Database => .Db
  | .Scope _ => .Db
  | .Table _ => .Db

/-- One arm of `compute` after the variant is matched: call `opt.check(lvl)`;
`?` propagates an error result immediately; on success fall through to the
`todo!()` placeholder, which panics (no result value; modelled as `none`)
without performing any further effect.  The first component is the trace of
effects performed, in order. -/
def runGate {ε ω : Type} (check : Level → Except ε Unit) (lvl : Level) :
    List Effect × Option (Except ε ω) :=
  match check lvl with
  | .error e => ([.checkCall lvl], some (.error e))
  | .ok _ => ([.checkCall lvl], none)

/-- `InfoStatement::compute`: match on the variant, check the corresponding
permission tier, then reach `todo!()`.  The permission context is the
injected capability `check` (the spec models `opt.check` exactly so); the
runtime, transaction and document parameters play no role in the visible
body and are omitted.  Result: the effect trace paired with the outcome —
`some (Except.error e)` when the check fails with `e`, `none` when the
`todo!()` panic is reached, `some (Except.ok v)` never. -/
def compute {ε ω : Type} (check : Level → Except ε Unit) :
    InfoStatement → List Effect × Option (Except ε ω)
  | .Namespace => runGate check .Ns
  | .Database => runGate check .Db
  | .Scope _ => runGate check .Db
  | .Table _ => runGate check .Db

/-- The `Display` impl: canonical text of a statement, with upper-case full
keywords and the identifier payload emitted verbatim. -/
def render : InfoStatement → List Char
  | .Namespace => "INFO FOR NAMESPACE".toList
  | .Database => "INFO FOR DATABASE".toList
  | .Scope s => "INFO FOR SCOPE ".toList ++ s
  | .Table t => "INFO FOR TABLE ".toList ++ t

/-! ## The parser -/

/-- A nom parser over `&str`: consumes a prefix of the input, returning the
unconsumed remainder and a value, or fails returning `none`. -/
abbrev ParserL (α : Type) : Type := List Char → Option (List Char × α)

/-- nom's `tag_no_case`: match the tag case-insensitively as a prefix of the
input, returning the remainder and the consumed slice (original casing);
fail without consuming otherwise. -/
def tag_no_case : List Char → ParserL (List Char)
  | [], i => some (i, [])
  | _ :: _, [] => none
  | t :: ts, c :: cs =>
      if t.toLower = c.toLower then
        match tag_no_case ts cs with
        | some (r, m) => some (r, c :: m)
        | none => none
      else none

/-- Whitespace characters recognised by the separator rule. -/
def isWhitespaceChar (c : Char) : Bool :=
  c == ' ' || c == '\t' || c == '\r' || c == '\n'

/-- Modelled from the spec: `sql::comment::shouldbespace` (not under the
visible source tree) — "at least one whitespace/comment-skippable separator
is required at that point; its absence is a parse failure".  Modelled as one
or more whitespace characters; the comment form of the separator is not
specified further by the spec and no claim exercises it. -/
def shouldbespace : ParserL Unit := fun i =>
  match i with
  | [] => none
  | c :: cs =>
      if isWhitespaceChar c then some (cs.dropWhile isWhitespaceChar, ())
      else none

/-- Characters of a plain (unquoted) identifier token. -/
def isIdentChar (c : Char) : Bool :=
  c.isAlphanum || c == '_'

/-- nom's `take_while1`: the longest non-empty prefix of characters
satisfying `p`; fails if the first character does not satisfy `p`. -/
def take_while1 (p : Char → Bool) : ParserL (List Char) := fun i =>
  match i.takeWhile p with
  | [] => none
  | c :: cs => some (i.dropWhile p, c :: cs)

/-- Modelled from the spec: the plain branch of the identifier rule —
"letters/digits/underscore-like tokens". -/
def ident_default : ParserL (List Char) :=
  take_while1 isIdentChar

/-- Modelled from the spec: the backtick-quoted branch of the identifier
rule — backtick-quoted text, returned without the quotes; the payload is
non-empty (the spec's data-model invariant). -/
def ident_backtick : ParserL (List Char) := fun i =>
  match i with
  | '\x60' :: rest =>
      match take_while1 (fun c => c != '\x60') rest with
      | some (r, v) =>
          match r with
          | '\x60' :: r2 => some (r2, v)
          | _ => none
      | none => none
  | _ => none

/-- Modelled from the spec: the bracket-quoted branch of the identifier
rule — bracket-quoted text, returned without the quotes; the payload is
non-empty (the spec's data-model invariant). -/
def ident_brackets : ParserL (List Char) := fun i =>
  match i with
  | '⟨' :: rest =>
      match take_while1 (fun c => c != '⟩') rest with
      | some (r, v) =>
          match r with
          | '⟩' :: r2 => some (r2, v)
          | _ => none
      | none => none
  | _ => none

/-- nom's `alt` on two alternatives: ordered choice, first success wins; the
second parser runs on the original input (no input consumed on failure). -/
def alt2 {α : Type} (p q : ParserL α) : ParserL α := fun i =>
  match p i with
  | some r => some r
  | none => q i

/-- Modelled from the spec: `sql::ident::ident_raw` (not under the visible
source tree) — "the same identifier lexical class used elsewhere in the
language (letters/digits/underscore-like tokens, or backtick/bracket-quoted
arbitrary text)", returning the unquoted identifier value. -/
def ident_raw : ParserL (List Char) :=
  alt2 ident_default (alt2 ident_backtick ident_brackets)

/-- The `namespace` sub-rule: `NAMESPACE` or `NS`, case-insensitive. -/
def namespaceRule : ParserL InfoStatement := fun i =>
  match alt2 (tag_no_case "NAMESPACE".toList) (tag_no_case "NS".toList) i with
  | some (i, _) => some (i, .Namespace)
  | none => none

/-- The `database` sub-rule: `DATABASE` or `DB`, case-insensitive. -/
def database : ParserL InfoStatement := fun i =>
  match alt2 (tag_no_case "DATABASE".toList) (tag_no_case "DB".toList) i with
  | some (i, _) => some (i, .Database)
  | none => none

/-- The `scope` sub-rule: `SCOPE` or `SC`, then mandatory whitespace, then a
raw identifier. -/
def scope : ParserL InfoStatement := fun i =>
  match alt2 (tag_no_case "SCOPE".toList) (tag_no_case "SC".toList) i with
  | some (i, _) =>
      match shouldbespace i with
      | some (i, _) =>
          match ident_raw i with
          | some (i, s) => some (i, .Scope s)
          | none => none
      | none => none
  | none => none

/-- The `table` sub-rule: `TABLE` or `TB`, then mandatory whitespace, then a
raw identifier. -/
def table : ParserL InfoStatement := fun i =>
  match alt2 (tag_no_case "TABLE".toList) (tag_no_case "TB".toList) i with
  | some (i, _) =>
      match shouldbespace i with
      | some (i, _) =>
          match ident_raw i with
          | some (i, t) => some (i, .Table t)
          | none => none
      | none => none
  | none => none

/-- The `info` rule: `INFO`, mandatory whitespace, `FOR`, mandatory
whitespace, then the four sub-rules tried in order by `alt`. -/
def info : ParserL InfoStatement := fun i =>
  match tag_no_case "INFO".toList i with
  | some (i, _) =>
      match shouldbespace i with
      | some (i, _) =>
          match tag_no_case "FOR".toList i with
          | some (i, _) =>
              match shouldbespace i with
              | some (i, _) =>
                  alt2 namespaceRule (alt2 database (alt2 scope table)) i
              | none => none
          | none => none
      | none => none
  | none => none


/-- Ordered choice over a list of sub-parsers: try each in order, the first
success is authoritative; later alternatives run only if every earlier one
failed.  This is the list form of the nested `alt`. -/
def firstMatch {α : Type} : List (ParserL α) → ParserL α
  | [], _ => none
  | p :: ps, i =>
      match p i with
      | some r => some r
      | none => firstMatch ps i

/-- A payload accepted as one plain identifier token: non-empty, all
identifier characters.  This is the data-model invariant for `Scope` and
`Table` payloads in their unquoted form. -/
def wfPayload : InfoStatement → Prop
  | .Namespace => True
  | .Database => True
  | .Scope n => n ≠ [] ∧ n.all isIdentChar = true
  | .Table n => n ≠ [] ∧ n.all isIdentChar = true

/-! ## Helper lemmas -/

lemma takeWhilePre (p : Char → Bool) (l : List Char) : l.takeWhile p <+: l :=
  List.takeWhile_prefix p

lemma infixOfPre {l₁ l₂ : List Char} (h : l₁ <+: l₂) : l₁ <:+: l₂ :=
  List.IsPrefix.isInfix h

lemma infixOfSuf {l₁ l₂ : List Char} (h : l₁ <:+ l₂) : l₁ <:+: l₂ :=
  List.IsSuffix.isInfix h

lemma runGate_fst {ε ω : Type} (check : Level → Except ε Unit) (lvl : Level) :
    (@runGate ε ω check lvl).1 = [Effect.checkCall lvl] := by
  unfold runGate; cases check lvl <;> rfl

lemma runGate_error {ε ω : Type} (check : Level → Except ε Unit) (lvl : Level)
    (e : ε) (h : check lvl = .error e) :
    @runGate ε ω check lvl = ([Effect.checkCall lvl], some (.error e)) := by
  unfold runGate; rw [h]

lemma runGate_ok {ε ω : Type} (check : Level → Except ε Unit) (lvl : Level)
    (u : Unit) (h : check lvl = .ok u) :
    @runGate ε ω check lvl = ([Effect.checkCall lvl], none) := by
  unfold runGate; rw [h]

lemma compute_eq_runGate {ε ω : Type} (check : Level → Except ε Unit)
    (s : InfoStatement) :
    @compute ε ω check s = runGate check (requiredLevel s) := by
  cases s <;> rfl

lemma alt_eq_firstMatch (i : List Char) :
    alt2 namespaceRule (alt2 database (alt2 scope table)) i =
      firstMatch [namespaceRule, database, scope, table] i := by
  simp only [alt2, firstMatch]
  cases namespaceRule i <;> cases database i <;> cases scope i <;> cases table i <;> rfl

lemma ws_not_ident (c : Char) (h : isWhitespaceChar c = true) :
    isIdentChar c = false := by
  simp only [isWhitespaceChar, Bool.or_eq_true, beq_iff_eq] at h
  rcases h with ((h | h) | h) | h <;> subst h <;> decide

lemma ident_not_ws (c : Char) (h : isIdentChar c = true) :
    isWhitespaceChar c = false := by
  by_contra hc
  rw [Bool.not_eq_false] at hc
  rw [ws_not_ident c hc] at h
  exact Bool.false_ne_true h

lemma dropWhile_ws_of_ident (n : List Char) (hall : n.all isIdentChar = true) :
    n.dropWhile isWhitespaceChar = n := by
  cases n with
  | nil => rfl
  | cons c cs =>
    have hc : isIdentChar c = true := by
      simp only [List.all_cons, Bool.and_eq_true] at hall
      exact hall.1
    simp [List.dropWhile_cons, ident_not_ws c hc]

lemma take_while1_all (p : Char → Bool) (n : List Char) (hne : n ≠ [])
    (hall : ∀ x ∈ n, p x = true) :
    take_while1 p n = some ([], n) := by
  unfold take_while1
  rw [List.takeWhile_eq_self_iff.mpr hall, List.dropWhile_eq_nil_iff.mpr hall]
  cases n with
  | nil => exact absurd rfl hne
  | cons c cs => rfl

lemma ident_raw_all (n : List Char) (hne : n ≠ [])
    (hall : n.all isIdentChar = true) :
    ident_raw n = some ([], n) := by
  have hall2 : ∀ x ∈ n, isIdentChar x = true := by
    simpa only [List.all_eq_true] using hall
  unfold ident_raw alt2 ident_default
  rw [take_while1_all isIdentChar n hne hall2]

lemma alt2_eq_some {α : Type} (p q : ParserL α) (i : List Char)
    (x : List Char × α) (h : alt2 p q i = some x) :
    p i = some x ∨ q i = some x := by
  unfold alt2 at h
  cases hp : p i with
  | some y => rw [hp] at h; exact Or.inl h
  | none => rw [hp] at h; exact Or.inr h

lemma tag_no_case_suffix (t : List Char) :
    ∀ i r m : List Char, tag_no_case t i = some (r, m) → r <:+ i := by
  induction t with
  | nil =>
    intro i r m h
    unfold tag_no_case at h
    simp only [Option.some.injEq, Prod.mk.injEq] at h
    rw [← h.1]
  | cons c ts ih =>
    intro i r m h
    cases i with
    | nil => exact absurd h (by simp [tag_no_case])
    | cons x xs =>
      unfold tag_no_case at h
      by_cases hc : c.toLower = x.toLower
      · rw [if_pos hc] at h
        cases hm : tag_no_case ts xs with
        | none => rw [hm] at h; exact absurd h (by simp)
        | some p =>
          obtain ⟨r2, m2⟩ := p
          rw [hm] at h
          simp only [Option.some.injEq, Prod.mk.injEq] at h
          rw [← h.1]
          exact (ih xs r2 m2 hm).trans (List.suffix_cons x xs)
      · rw [if_neg hc] at h; exact absurd h (by simp)

lemma shouldbespace_suffix (i r : List Char) (u : Unit)
    (h : shouldbespace i = some (r, u)) : r <:+ i := by
  cases i with
  | nil => exact absurd h (by simp [shouldbespace])
  | cons c cs =>
    simp only [shouldbespace] at h
    split at h
    · simp only [Option.some.injEq, Prod.mk.injEq] at h
      rw [← h.1]
      exact (List.dropWhile_suffix _).trans (List.suffix_cons c cs)
    · exact absurd h (by simp)

lemma take_while1_spec (p : Char → Bool) (i r v : List Char)
    (h : take_while1 p i = some (r, v)) :
    v ≠ [] ∧ v <:+: i ∧ r <:+ i := by
  unfold take_while1 at h
  cases ht : i.takeWhile p with
  | nil => rw [ht] at h; exact absurd h (by simp)
  | cons c cs =>
    rw [ht] at h
    simp only [Option.some.injEq, Prod.mk.injEq] at h
    obtain ⟨h1, h2⟩ := h
    refine ⟨by rw [← h2]; simp, ?_, by rw [← h1]; exact List.dropWhile_suffix p⟩
    rw [← h2, ← ht]
    exact infixOfPre (takeWhilePre p i)

lemma ident_backtick_spec (i r v : List Char)
    (h : ident_backtick i = some (r, v)) :
    v ≠ [] ∧ v <:+: i ∧ r <:+ i := by
  unfold ident_backtick at h
  split at h
  · next rest =>
    split at h
    · next r1 v1 htw =>
      split at h
      · next r2 =>
        simp only [Option.some.injEq, Prod.mk.injEq] at h
        obtain ⟨h1, h2⟩ := h
        subst h1
        subst h2
        obtain ⟨hv1, hvi, hr1⟩ := take_while1_spec _ rest _ _ htw
        exact ⟨hv1, hvi.trans (infixOfSuf (List.suffix_cons _ rest)),
          ((List.suffix_cons _ _).trans hr1).trans (List.suffix_cons _ rest)⟩
      · exact absurd h (by simp)
    · exact absurd h (by simp)
  · exact absurd h (by simp)

lemma ident_brackets_spec (i r v : List Char)
    (h : ident_brackets i = some (r, v)) :
    v ≠ [] ∧ v <:+: i ∧ r <:+ i := by
  unfold ident_brackets at h
  split at h
  · next rest =>
    split at h
    · next r1 v1 htw =>
      split at h
      · next r2 =>
        simp only [Option.some.injEq, Prod.mk.injEq] at h
        obtain ⟨h1, h2⟩ := h
        subst h1
        subst h2
        obtain ⟨hv1, hvi, hr1⟩ := take_while1_spec _ rest _ _ htw
        exact ⟨hv1, hvi.trans (infixOfSuf (List.suffix_cons _ rest)),
          ((List.suffix_cons _ _).trans hr1).trans (List.suffix_cons _ rest)⟩
      · exact absurd h (by simp)
    · exact absurd h (by simp)
  · exact absurd h (by simp)

lemma ident_raw_spec (i r v : List Char)
    (h : ident_raw i = some (r, v)) :
    v ≠ [] ∧ v <:+: i ∧ r <:+ i := by
  unfold ident_raw at h
  rcases alt2_eq_some _ _ i (r, v) h with h1 | h1
  · exact take_while1_spec isIdentChar i r v h1
  · rcases alt2_eq_some _ _ i (r, v) h1 with h2 | h2
    · exact ident_backtick_spec i r v h2
    · exact ident_brackets_spec i r v h2

lemma namespaceRule_variant (j r : List Char) (st : InfoStatement)
    (h : namespaceRule j = some (r, st)) : st = .Namespace := by
  unfold namespaceRule at h
  split at h
  · simp only [Option.some.injEq, Prod.mk.injEq] at h
    exact h.2.symm
  · exact absurd h (by simp)

lemma database_variant (j r : List Char) (st : InfoStatement)
    (h : database j = some (r, st)) : st = .Database := by
  unfold database at h
  split at h
  · simp only [Option.some.injEq, Prod.mk.injEq] at h
    exact h.2.symm
  · exact absurd h (by simp)

lemma scope_payload (j r : List Char) (st : InfoStatement)
    (h : scope j = some (r, st)) :
    ∃ n, st = InfoStatement.Scope n ∧ n ≠ [] ∧ n <:+: j := by
  unfold scope at h
  split at h
  · next j1 m halt =>
    have hj1 : j1 <:+ j := by
      rcases alt2_eq_some _ _ j (j1, m) halt with h1 | h1
      · exact tag_no_case_suffix _ j j1 m h1
      · exact tag_no_case_suffix _ j j1 m h1
    split at h
    · next j2 u hws =>
      have hj2 : j2 <:+ j1 := shouldbespace_suffix j1 j2 u hws
      split at h
      · next j3 s hident =>
        simp only [Option.some.injEq, Prod.mk.injEq] at h
        obtain ⟨h1, h2⟩ := h
        obtain ⟨hne, hinf, _⟩ := ident_raw_spec j2 j3 s hident
        exact ⟨s, h2.symm, hne, hinf.trans (infixOfSuf (hj2.trans hj1))⟩
      · exact absurd h (by simp)
    · exact absurd h (by simp)
  · exact absurd h (by simp)

lemma table_payload (j r : List Char) (st : InfoStatement)
    (h : table j = some (r, st)) :
    ∃ n, st = InfoStatement.Table n ∧ n ≠ [] ∧ n <:+: j := by
  unfold table at h
  split at h
  · next j1 m halt =>
    have hj1 : j1 <:+ j := by
      rcases alt2_eq_some _ _ j (j1, m) halt with h1 | h1
      · exact tag_no_case_suffix _ j j1 m h1
      · exact tag_no_case_suffix _ j j1 m h1
    split at h
    · next j2 u hws =>
      have hj2 : j2 <:+ j1 := shouldbespace_suffix j1 j2 u hws
      split at h
      · next j3 s hident =>
        simp only [Option.some.injEq, Prod.mk.injEq] at h
        obtain ⟨h1, h2⟩ := h
        obtain ⟨hne, hinf, _⟩ := ident_raw_spec j2 j3 s hident
        exact ⟨s, h2.symm, hne, hinf.trans (infixOfSuf (hj2.trans hj1))⟩
      · exact absurd h (by simp)
    · exact absurd h (by simp)
  · exact absurd h (by simp)

lemma info_subrules (i r : List Char) (st : InfoStatement)
    (h : info i = some (r, st)) :
    ∃ j, j <:+ i ∧
      alt2 namespaceRule (alt2 database (alt2 scope table)) j = some (r, st) := by
  unfold info at h
  split at h
  · next i1 m1 ht1 =>
    split at h
    · next i2 u1 hw1 =>
      split at h
      · next i3 m2 ht2 =>
        split at h
        · next i4 u2 hw2 =>
          refine ⟨i4, ?_, h⟩
          have s1 := tag_no_case_suffix _ i i1 m1 ht1
          have s2 := shouldbespace_suffix i1 i2 u1 hw1
          have s3 := tag_no_case_suffix _ i2 i3 m2 ht2
          have s4 := shouldbespace_suffix i3 i4 u2 hw2
          exact ((s4.trans s3).trans s2).trans s1
        · exact absurd h (by simp)
      · exact absurd h (by simp)
    · exact absurd h (by simp)
  · exact absurd h (by simp)

/-! ## The claims -/

/-- Claim C1: `compute` checks exactly the specified minimum permission tier
for every variant — `Namespace` is checked against the namespace level, and
`Database`, `Scope(name)` and `Table(name)` (for every identifier payload)
are each checked against the database level. -/
theorem compute_checks_required_tier {ε ω : Type} (check : Level → Except ε Unit)
    (nm tb : List Char) :
    (@compute ε ω check .Namespace).1 = [Effect.checkCall Level.Ns] ∧
    (@compute ε ω check .Database).1 = [Effect.checkCall Level.Db] ∧
    (@compute ε ω check (.Scope nm)).1 = [Effect.checkCall Level.Db] ∧
    (@compute ε ω check (.Table tb)).1 = [Effect.checkCall Level.Db] := by
  refine ⟨?_, ?_, ?_, ?_⟩ <;> rw [compute_eq_runGate] <;> exact runGate_fst ..

/-- Claim C2: for every statement and every permission context, `compute`
performs exactly one authorization check call, with the required tier of the
matched variant, and never touches introspection; if the check fails, the
authorization error is returned immediately with no further effect
(fail-closed). -/
theorem compute_single_check_fail_closed {ε ω : Type}
    (check : Level → Except ε Unit) (s : InfoStatement) :
    (@compute ε ω check s).1 = [Effect.checkCall (requiredLevel s)] ∧
    Effect.introspect ∉ (@compute ε ω check s).1 ∧
    (∀ e : ε, check (requiredLevel s) = .error e →
      @compute ε ω check s = ([Effect.checkCall (requiredLevel s)], some (.error e))) := by
  refine ⟨?_, ?_, ?_⟩
  · rw [compute_eq_runGate]; exact runGate_fst ..
  · rw [compute_eq_runGate, runGate_fst]; simp
  · intro e he; rw [compute_eq_runGate]; exact runGate_error _ _ _ he

theorem compute_single_check_fail_closed_witness :
    @compute Unit Unit (fun _ => Except.error ()) InfoStatement.Namespace =
      ([Effect.checkCall Level.Ns], some (Except.error ())) :=
  (compute_single_check_fail_closed (fun _ => Except.error ())
    InfoStatement.Namespace).2.2 () rfl

/-- Claim C3, corrected: the claim quantifies over every constructible
statement, but a `Scope`/`Table` payload that is not a single plain
identifier token does not survive the round trip (see the counterexample);
amended to statements whose payloads are non-empty plain identifier text,
for which parse after render is the identity (and consumes all input). -/
theorem parse_render_roundtrip (s : InfoStatement) (h : wfPayload s) :
    info (render s) = some ([], s) := by
  cases s with
  | Namespace => rfl
  | Database => rfl
  | Scope n =>
    obtain ⟨hne, hall⟩ := h
    have hd : n.dropWhile isWhitespaceChar = n := dropWhile_ws_of_ident n hall
    have hi : ident_raw n = some ([], n) := ident_raw_all n hne hall
    have e1 : info (render (InfoStatement.Scope n)) =
        alt2 namespaceRule (alt2 database (alt2 scope table))
          ('S' :: 'C' :: 'O' :: 'P' :: 'E' :: ' ' :: n) := rfl
    have h1 : namespaceRule ('S' :: 'C' :: 'O' :: 'P' :: 'E' :: ' ' :: n) = none := rfl
    have h2 : database ('S' :: 'C' :: 'O' :: 'P' :: 'E' :: ' ' :: n) = none := rfl
    have h4 : scope ('S' :: 'C' :: 'O' :: 'P' :: 'E' :: ' ' :: n) =
        (match ident_raw (n.dropWhile isWhitespaceChar) with
          | some (r, v) => some (r, InfoStatement.Scope v)
          | none => none) := rfl
    rw [e1]
    simp only [alt2]
    rw [h1, h2, h4, hd, hi]
  | Table n =>
    obtain ⟨hne, hall⟩ := h
    have hd : n.dropWhile isWhitespaceChar = n := dropWhile_ws_of_ident n hall
    have hi : ident_raw n = some ([], n) := ident_raw_all n hne hall
    have e1 : info (render (InfoStatement.Table n)) =
        alt2 namespaceRule (alt2 database (alt2 scope table))
          ('T' :: 'A' :: 'B' :: 'L' :: 'E' :: ' ' :: n) := rfl
    have h1 : namespaceRule ('T' :: 'A' :: 'B' :: 'L' :: 'E' :: ' ' :: n) = none := rfl
    have h2 : database ('T' :: 'A' :: 'B' :: 'L' :: 'E' :: ' ' :: n) = none := rfl
    have h3 : scope ('T' :: 'A' :: 'B' :: 'L' :: 'E' :: ' ' :: n) = none := rfl
    have h4 : table ('T' :: 'A' :: 'B' :: 'L' :: 'E' :: ' ' :: n) =
        (match ident_raw (n.dropWhile isWhitespaceChar) with
          | some (r, v) => some (r, InfoStatement.Table v)
          | none => none) := rfl
    rw [e1]
    simp only [alt2]
    rw [h1, h2, h3, h4, hd, hi]

theorem parse_render_roundtrip_witness :
    info (render (InfoStatement.Scope ['t', 'e', 's', 't'])) =
      some ([], InfoStatement.Scope ['t', 'e', 's', 't']) :=
  parse_render_roundtrip (InfoStatement.Scope ['t', 'e', 's', 't'])
    ⟨by decide, by decide⟩

/-- Claim C3, counterexample: the statement `Scope "a b"` renders as
`INFO FOR SCOPE a b`, which parses successfully but yields `Scope "a"`
(with ` b` left unconsumed) — not a statement structurally equal to the
original, refuting the round trip for arbitrary constructed statements. -/
theorem roundtrip_fails_on_nonident_payload :
    (info (render (InfoStatement.Scope ['a', ' ', 'b']))).map Prod.snd ≠
      some (InfoStatement.Scope ['a', ' ', 'b']) := by decide

/-- Claim C4: the renderer maps each variant to its fixed canonical text with
the upper-case full keyword (never the short alias), emitting identifier
payloads verbatim; in particular the statement parsed from `INFO FOR DB`
renders back as `INFO FOR DATABASE`. -/
theorem render_canonical_keywords :
    render .Namespace = "INFO FOR NAMESPACE".toList ∧
    render .Database = "INFO FOR DATABASE".toList ∧
    (∀ s : List Char, render (.Scope s) = "INFO FOR SCOPE ".toList ++ s) ∧
    (∀ t : List Char, render (.Table t) = "INFO FOR TABLE ".toList ++ t) ∧
    (info "INFO FOR DB".toList).map (fun r => render r.2) =
      some "INFO FOR DATABASE".toList :=
  ⟨rfl, rfl, fun _ => rfl, fun _ => rfl, rfl⟩

/-- Claim C5: the parser requires `INFO`, whitespace, `FOR`, whitespace in
sequence and then tries the four sub-rules in a fixed order with the first
match authoritative (the nested `alt` equals ordered first-match over the
list of sub-rules); input whose target keyword begins with `NAMESPACE` is
consumed by the full `NAMESPACE` alternative, never mistaken for an
`NS`-only match (the remainder after the keyword is exactly the rest of the
input). -/
theorem info_sequence_ordered_choice :
    (∀ i : List Char,
      alt2 namespaceRule (alt2 database (alt2 scope table)) i =
        firstMatch [namespaceRule, database, scope, table] i) ∧
    (∀ r : List Char,
      info ("INFO FOR NAMESPACE".toList ++ r) = some (r, .Namespace)) ∧
    info "INFO FOR NS".toList = some ([], .Namespace) ∧
    info "FOR NAMESPACE".toList = none ∧
    info "INFO NAMESPACE".toList = none :=
  ⟨alt_eq_firstMatch, fun _ => rfl, rfl, rfl, rfl⟩

/-- Claim C6: keyword matching is case-insensitive and the aliases are
semantically equivalent — every casing of `INFO FOR NAMESPACE` parses to
`Namespace`, `INFO FOR NS` parses identically to `INFO FOR NAMESPACE`, and
for every identifier suffix the `SC` and `SCOPE` spellings parse to the same
result. -/
theorem case_insensitive_alias_equivalent :
    info "info for namespace".toList = some ([], .Namespace) ∧
    info "InFo FoR nAmEsPaCe".toList = some ([], .Namespace) ∧
    info "INFO FOR NAMESPACE".toList = some ([], .Namespace) ∧
    info "INFO FOR NS".toList = info "INFO FOR NAMESPACE".toList ∧
    (∀ id : List Char,
      info ("INFO FOR SC ".toList ++ id) = info ("INFO FOR SCOPE ".toList ++ id)) ∧
    info "INFO FOR SC foo".toList = some ([], .Scope ['f', 'o', 'o']) ∧
    info "INFO FOR SCOPE foo".toList = some ([], .Scope ['f', 'o', 'o']) :=
  ⟨rfl, rfl, rfl, rfl, fun _ => rfl, rfl, rfl⟩

/-- Claim C7: a missing mandatory separator (or missing identifier) is a
parse failure — `INFO FORNAMESPACE`, `INFO FOR SCOPEfoo` and `INFO FOR SCOPE`
all fail to parse. -/
theorem mandatory_separator_enforced :
    info "INFO FORNAMESPACE".toList = none ∧
    info "INFO FOR SCOPEfoo".toList = none ∧
    info "INFO FOR SCOPE".toList = none :=
  ⟨rfl, rfl, rfl⟩

/-- Claim C8: every `Scope` or `Table` statement produced by a successful
parse carries a non-empty identifier payload, and the payload text occurs
verbatim in the input (unquoted, case preserved exactly). -/
theorem parsed_payload_nonempty_verbatim (i r n : List Char)
    (h : info i = some (r, InfoStatement.Scope n) ∨
         info i = some (r, InfoStatement.Table n)) :
    n ≠ [] ∧ n <:+: i := by
  have main : ∀ st : InfoStatement, info i = some (r, st) →
      st = InfoStatement.Scope n ∨ st = InfoStatement.Table n →
      n ≠ [] ∧ n <:+: i := by
    intro st hst hvar
    obtain ⟨j, hji, halt⟩ := info_subrules i r st hst
    rcases alt2_eq_some _ _ j (r, st) halt with h1 | h1
    · have hv2 := namespaceRule_variant j r st h1
      rcases hvar with hv | hv <;> rw [hv] at hv2 <;> exact absurd hv2 (by simp)
    · rcases alt2_eq_some _ _ j (r, st) h1 with h2 | h2
      · have hv2 := database_variant j r st h2
        rcases hvar with hv | hv <;> rw [hv] at hv2 <;> exact absurd hv2 (by simp)
      · rcases alt2_eq_some _ _ j (r, st) h2 with h3 | h3
        · obtain ⟨n2, hstn, hne, hinf⟩ := scope_payload j r st h3
          rcases hvar with hv | hv
          · rw [hv] at hstn
            have hn : n = n2 := by injection hstn
            subst hn
            exact ⟨hne, hinf.trans (infixOfSuf hji)⟩
          · rw [hv] at hstn
            exact absurd hstn (by simp)
        · obtain ⟨n2, hstn, hne, hinf⟩ := table_payload j r st h3
          rcases hvar with hv | hv
          · rw [hv] at hstn
            exact absurd hstn (by simp)
          · rw [hv] at hstn
            have hn : n = n2 := by injection hstn
            subst hn
            exact ⟨hne, hinf.trans (infixOfSuf hji)⟩
  rcases h with h | h
  · exact main _ h (Or.inl rfl)
  · exact main _ h (Or.inr rfl)

theorem parsed_payload_nonempty_verbatim_witness :
    (['A', 'b', 'C'] : List Char) ≠ [] ∧
      (['A', 'b', 'C'] : List Char) <:+: "INFO FOR SCOPE AbC".toList :=
  parsed_payload_nonempty_verbatim "INFO FOR SCOPE AbC".toList [] ['A', 'b', 'C']
    (Or.inl rfl)

/-- Claim C9: no token boundary is required after the payload-less target
keywords — for any further characters directly after `DB` (respectively
`NS`), the parse succeeds matching only the keyword, returning `Database`
(respectively `Namespace`) with the extra characters as the unconsumed
remainder. -/
theorem keyword_prefix_match_no_boundary :
    (∀ r : List Char, info ("INFO FOR DB".toList ++ r) = some (r, .Database)) ∧
    (∀ r : List Char, info ("INFO FOR NS".toList ++ r) = some (r, .Namespace)) ∧
    info "INFO FOR DBX".toList = some (['X'], .Database) ∧
    info "INFO FOR NSFOO".toList = some (['F', 'O', 'O'], .Namespace) :=
  ⟨fun _ => rfl, fun _ => rfl, rfl, rfl⟩

/-- Claim C10: `compute` never produces a successful result value — when the
permission check fails it returns that error, and when the check succeeds it
reaches the `todo!()` placeholder (a panic, modelled as `none`), so the `Ok`
branch of the result is unreachable. -/
theorem compute_never_returns_ok {ε ω : Type}
    (check : Level → Except ε Unit) (s : InfoStatement) :
    (∀ v : ω, (@compute ε ω check s).2 ≠ some (Except.ok v)) ∧
    (∀ e : ε, check (requiredLevel s) = .error e →
      (@compute ε ω check s).2 = some (Except.error e)) ∧
    (∀ u : Unit, check (requiredLevel s) = .ok u →
      (@compute ε ω check s).2 = none) := by
  refine ⟨?_, ?_, ?_⟩
  · intro v; rw [compute_eq_runGate]
    cases h : check (requiredLevel s) with
    | error e => rw [runGate_error _ _ _ h]; simp
    | ok u => rw [runGate_ok _ _ _ h]; simp
  · intro e he; rw [compute_eq_runGate, runGate_error _ _ _ he]
  · intro u hu; rw [compute_eq_runGate, runGate_ok _ _ _ hu]

theorem compute_never_returns_ok_witness :
    ((@compute Unit Unit (fun _ => Except.ok ()) InfoStatement.Database).2 ≠
      some (Except.ok ())) ∧
    (@compute Unit Unit (fun _ => Except.ok ()) InfoStatement.Database).2 = none :=
  ⟨(compute_never_returns_ok (fun _ => Except.ok ()) InfoStatement.Database).1 (),
   (compute_never_returns_ok (fun _ => Except.ok ()) InfoStatement.Database).2.2 () rfl⟩

end Info
